import Mathlib

/-!
# Verification of the cape-machine-reader span-decoding core

This file gives a shallow embedding in Lean 4 of the parts of the
`cape_machine_reader` Python package that the verified properties below are
about, and proves (or refutes) those properties.

Modelling conventions:
* Python floats are modelled as rationals (`ℚ`); numpy arrays as `List ℚ`.
* The lazy generator `find_answer_spans` is modelled as a step function on an
  explicit decoder state, together with fuel-indexed runners that collect the
  yielded `(span, score)` records.
* Fallible code (`assert`, exceptions) is modelled with `Except` / `Option`.
* `np.exp` inside `softmax` is transcendental, so it is kept as an explicit
  function parameter `expQ`; nothing proved here depends on its values beyond
  positivity.
-/

namespace Cape

/-! ## Embedding of `cape_answer_decoder.find_answer_spans`

Source: `src/cape_machine_reader/cape_answer_decoder.py`.

```
EPSILON = 1e-6
RESET_RANGE = 1
already_used = interval()
remaining_continuations = int(1e2)
while sum(y1_list) > EPSILON:
    cummax_y_start = np.maximum.accumulate(y1_list)
    cummax_ind = np.nonzero(y1_list == cummax_y_start)[0]
    cumargmax = np.zeros_like(y1_list, dtype=np.int)
    cumargmax[cummax_ind] = cummax_ind
    cumargmax_y_start = np.maximum.accumulate(cumargmax)
    ...
```
-/

/-- Minimum sum of all probabilities to continue searching (`EPSILON = 1e-6`). -/
def EPSILON : ℚ := 1 / 1000000

/-- Range around the answer span to reset probabilities for (`RESET_RANGE = 1`). -/
def RESET_RANGE : ℕ := 1

/-- Decay of the end probability per word of distance (`proportion_to_decay = 0.01`). -/
def proportionToDecay : ℚ := 1 / 100

/-- Retry budget for the duplicate-overlap guard (`remaining_continuations = int(1e2)`). -/
def INITIAL_CONTINUATIONS : ℕ := 100

/-- Helper for `np.maximum.accumulate`: running maxima of `l` continuing from `m`. -/
def maxAccumFrom {α : Type} [LinearOrder α] (m : α) : List α → List α
  | [] => []
  | x :: xs => max m x :: maxAccumFrom (max m x) xs

/-- `np.maximum.accumulate`: the list of running maxima of `l`. -/
def maximumAccumulate {α : Type} [LinearOrder α] : List α → List α
  | [] => []
  | x :: xs => x :: maxAccumFrom x xs

/-- The indicator-index array `cumargmax`: entry `i` is `i` where
`y1_list[i] == cummax_y_start[i]` and `0` elsewhere (the numpy code builds it by
writing `cummax_ind` into an array of zeros at positions `cummax_ind`). -/
def cumargmaxMask (y1 : List ℚ) : List ℕ :=
  let cm := maximumAccumulate y1
  (List.range y1.length).map (fun i => if y1.getD i 0 = cm.getD i 0 then i else 0)

/-- `cumargmax_y_start = np.maximum.accumulate(cumargmax)`. -/
def cumargmaxYStart (y1 : List ℚ) : List ℕ :=
  maximumAccumulate (cumargmaxMask y1)

/-- Accumulator of the selection scan: current best start, best end, and the
highest decayed objective value seen so far. -/
structure ScanAcc where
  optS : ℕ
  optE : ℕ
  highest : ℚ
deriving DecidableEq

/-- One iteration `i` of the selection loop
`for i in range(1, len(y2_list))`: decay the end probability by the distance to
the current prefix-argmax of the start probabilities, and update the best
`(start, end)` pair on strict improvement of
`cummax_y_start[i] * end_prob`. -/
def scanStep (y2 cm : List ℚ) (cam : List ℕ) (acc : ScanAcc) (i : ℕ) : ScanAcc :=
  let curIdx := cam.getD i 0
  let endProb := max 0 (y2.getD i 0 * (1 - proportionToDecay * ((i : ℚ) - (curIdx : ℚ))))
  let curMax := cm.getD i 0 * endProb
  if acc.highest < curMax then ⟨curIdx, i, curMax⟩ else acc

/-- The whole selection scan of one `while` iteration, seeded with the
candidate `(0, 0)` whose value is `y1_list[0] * y2_list[0]`. -/
def selectSpan (y1 y2 : List ℚ) : ScanAcc :=
  let cm := maximumAccumulate y1
  let cam := cumargmaxYStart y1
  ((List.range y2.length).drop 1).foldl (scanStep y2 cm cam) ⟨0, 0, y1.getD 0 0 * y2.getD 0 0⟩

/-- Slice assignment `l[a:b] = 0.0`. -/
def zeroRange (l : List ℚ) (a b : ℕ) : List ℚ :=
  (List.range l.length).map (fun i => if a ≤ i ∧ i < b then 0 else l.getD i 0)

/-- `interval[p.1, p.2] & interval[q.1, q.2]` is non-empty: the `interval`
library works with closed real intervals, so two ranges intersect exactly when
`max` of the left ends is `≤` `min` of the right ends. -/
def intervalsIntersect (p q : ℕ × ℕ) : Bool :=
  max p.1 q.1 ≤ min p.2 q.2

/-- `already_used & range_interval` is truthy: the fresh closed interval meets
some component of the union of previously used closed intervals. -/
def intersectsUsed (used : List (ℕ × ℕ)) (r : ℕ × ℕ) : Bool :=
  used.any (fun u => intervalsIntersect u r)

/-- The mutable state of one `find_answer_spans` session: the two probability
vectors (mutated in place by the zeroing), the union of already used closed
intervals (kept as the list of intervals added so far), and the remaining
retry budget `remaining_continuations`. -/
structure DecoderState where
  y1 : List ℚ
  y2 : List ℚ
  used : List (ℕ × ℕ)
  cont : ℕ
deriving DecidableEq

/-- The suppressed range of the current iteration:
`range_start = max(0, opt_pos_start - RESET_RANGE)` (natural subtraction) and
`range_end = min(len(y1_list), opt_pos_end + RESET_RANGE)`. -/
def suppressedRange (s : DecoderState) : ℕ × ℕ :=
  let sel := selectSpan s.y1 s.y2
  (sel.optS - RESET_RANGE, min s.y1.length (sel.optE + RESET_RANGE))

/-- Outcome of one `while` iteration: the loop exits (`done`), the iteration
hits the duplicate guard and `continue`s without yielding (`skipped`), or it
yields a `(span, score)` record (`yielded`). -/
inductive StepResult where
  | done : StepResult
  | skipped (s : DecoderState) : StepResult
  | yielded (span : ℕ × ℕ) (score : ℚ) (s : DecoderState) : StepResult
deriving DecidableEq

/-- One iteration of the `while sum(y1_list) > EPSILON` loop of
`find_answer_spans`. -/
def decoderStep (s : DecoderState) : StepResult :=
  if EPSILON < s.y1.sum then
    let sel := selectSpan s.y1 s.y2
    let score := s.y1.getD sel.optS 0 * s.y2.getD sel.optE 0
    let r := suppressedRange s
    let y1' := zeroRange s.y1 r.1 r.2
    let y2' := zeroRange s.y2 r.1 r.2
    if 0 < s.cont then
      if intersectsUsed s.used r then
        .skipped ⟨y1', y2', s.used, s.cont - 1⟩
      else
        .yielded (sel.optS, sel.optE) score ⟨y1', y2', s.used ++ [r], s.cont⟩
    else
      .yielded (sel.optS, sel.optE) score ⟨y1', y2', s.used, s.cont⟩
  else .done

/-- The state a fresh `find_answer_spans(y1_list, y2_list)` generator starts
from: no used intervals, full retry budget. -/
def initState (y1 y2 : List ℚ) : DecoderState :=
  ⟨y1, y2, [], INITIAL_CONTINUATIONS⟩

/-- The state after one loop iteration, `none` when the loop has exited. -/
def stepState (s : DecoderState) : Option DecoderState :=
  match decoderStep s with
  | .done => none
  | .skipped s' => some s'
  | .yielded _ _ s' => some s'

/-- The state after `n` loop iterations; `none` once the loop has exited. -/
def stepIterOpt : ℕ → DecoderState → Option DecoderState
  | 0, s => some s
  | n + 1, s =>
    match stepState s with
    | none => none
    | some s' => stepIterOpt n s'

/-- The `find_answer_spans` loop terminates from state `s`: after some finite
number of iterations the condition `sum(y1_list) > EPSILON` fails. -/
def Terminates (s : DecoderState) : Prop :=
  ∃ n, stepIterOpt n s = none

/-- Run up to `fuel` loop iterations, recording every yielded
`(span, score)` record together with the suppressed range of that iteration
and the value of `remaining_continuations` the iteration started with. -/
def runDecoderTrace : ℕ → DecoderState → List (((ℕ × ℕ) × ℚ) × ((ℕ × ℕ) × ℕ))
  | 0, _ => []
  | fuel + 1, s =>
    match decoderStep s with
    | .done => []
    | .skipped s' => runDecoderTrace fuel s'
    | .yielded sp sc s' => ((sp, sc), (suppressedRange s, s.cont)) :: runDecoderTrace fuel s'

/-- The `(span, score)` records yielded within `fuel` loop iterations. -/
def runDecoder (fuel : ℕ) (s : DecoderState) : List ((ℕ × ℕ) × ℚ) :=
  (runDecoderTrace fuel s).map Prod.fst

/-- The decoder state after up to `fuel` loop iterations (unchanged once the
loop has exited): the final contents of the two mutated buffers. -/
def runFinal : ℕ → DecoderState → DecoderState
  | 0, s => s
  | fuel + 1, s =>
    match decoderStep s with
    | .done => s
    | .skipped s' => runFinal fuel s'
    | .yielded _ _ s' => runFinal fuel s'

/-- Number of positive entries of a probability vector. -/
def countPos (l : List ℚ) : ℕ :=
  ((List.range l.length).filter (fun i => decide (0 < l.getD i 0))).length

/-! ## Embedding of `cape_answer_decoder.softmax` and `find_best_spans` -/

/-- `np.max` of a vector; on an empty array numpy raises
`ValueError: zero-size array to reduction operation maximum`. -/
def npMax (l : List ℚ) : Except Unit ℚ :=
  match l with
  | [] => .error ()
  | x :: xs => .ok (xs.foldl max x)

/-- `softmax(logits) = np.exp(logits - m) / np.sum(np.exp(logits - m))` with
`m = np.max(logits)`.  `np.exp` is kept as the parameter `expQ`. -/
def softmax (expQ : ℚ → ℚ) (logits : List ℚ) : Except Unit (List ℚ) :=
  match npMax logits with
  | .error _ => .error ()
  | .ok m =>
    let exps := logits.map (fun x => expQ (x - m))
    .ok (exps.map (fun e => e / exps.sum))

/-- Python string / numpy slice `l[a:b]` (for `0 ≤ a`, `0 ≤ b ≤ len`). -/
def pySlice {α : Type} (l : List α) (a b : ℕ) : List α :=
  (l.take b).drop a

/-- The record built by `find_best_spans` for one decoded span
(the dataclass `AnswerSpan`). -/
structure AnswerSpanRec where
  answerText : List Char
  characterIndices : ℕ × ℕ
  wordIndices : ℕ × ℕ
  longAnswerText : List Char
  longCharacterIndices : ℕ × ℕ
  longWordIndices : ℕ × ℕ
  score : ℚ
deriving DecidableEq

/-- Body of the `find_best_spans` loop for one record pulled from the
`find_answer_spans` iterator: character spans from the token offset table,
long span expanded by `long_text_expansion_in_words` tokens each side and
clipped to `[0, len(context_offsets) - 1]`. -/
def materializeSpan (context : List Char) (contextOffsets : List (ℕ × ℕ))
    (expansion : ℕ) (rec : (ℕ × ℕ) × ℚ) : AnswerSpanRec :=
  let w := rec.1
  let charIdx := ((contextOffsets.getD w.1 (0, 0)).1, (contextOffsets.getD w.2 (0, 0)).2)
  let answerText := pySlice context charIdx.1 charIdx.2
  let longW := (w.1 - expansion, min (contextOffsets.length - 1) (w.2 + expansion))
  let longCharIdx := ((contextOffsets.getD longW.1 (0, 0)).1, (contextOffsets.getD longW.2 (0, 0)).2)
  let longText := pySlice context longCharIdx.1 longCharIdx.2
  ⟨answerText, charIdx, w, longText, longCharIdx, longW, rec.2⟩

/-- `find_best_spans(context, context_offsets, y1_list, y2_list, top_k)`:
decode spans from private copies of the probability vectors and materialize
the first `top_k` of them.  `fuel` bounds the number of decoder loop
iterations run while pulling from the lazy iterator; if the decoder yields
fewer than `top_k` records the pull of `next(iterator)` fails. -/
def findBestSpans (context : List Char) (contextOffsets : List (ℕ × ℕ))
    (y1 y2 : List ℚ) (topK fuel : ℕ) : Except Unit (List AnswerSpanRec) :=
  let yields := runDecoder fuel (initState y1 y2)
  if yields.length < topK then .error ()
  else .ok ((yields.take topK).map (materializeSpan context contextOffsets 20))

/-- `find_best_spans` with buffer identity made explicit: the store is a heap
of float buffers addressed by index, the caller passes references `i1`, `i2`
to its two probability vectors.  `y1_list = y1_list.copy()` /
`y2_list = y2_list.copy()` allocate fresh buffers at the end of the store, and
the in-place zeroing of `find_answer_spans` mutates exactly those fresh
buffers, leaving the final contents of the decoder state there. -/
def findBestSpansStore (store : List (List ℚ)) (i1 i2 : ℕ) (topK fuel : ℕ) :
    List (List ℚ) × List ((ℕ × ℕ) × ℚ) :=
  let y1 := store.getD i1 []
  let y2 := store.getD i2 []
  let n := store.length
  let store' := store ++ [y1, y2]
  let final := runFinal fuel (initState y1 y2)
  (((store'.set n final.y1).set (n + 1) final.y2), (runDecoder fuel (initState y1 y2)).take topK)

/-! ## Embedding of `objects/machine_reader_answer.py`

`MachineReaderAnswer.__init__` runs a sequence of `assert` statements and then
stores its arguments.  Spans are typed here as pairs of `Option ℤ` (a Python
`int` or `None`); the `isinstance(span[i], int)` checks of the source are the
`isSome` checks below. -/

/-- An answer record as stored after the constructor's asserts pass. -/
structure MachineReaderAnswer where
  text : Option (List Char)
  span : Option ℤ × Option ℤ
  longText : Option (List Char)
  longTextSpan : Option ℤ × Option ℤ
  scoreReader : ℚ
  scoreAnswerInDocument : ℚ
deriving DecidableEq

/-- `MachineReaderAnswer.__init__`: `none` models the constructor raising
`AssertionError`. -/
def mkMachineReaderAnswer (text : Option (List Char)) (span : Option ℤ × Option ℤ)
    (longText : Option (List Char)) (longTextSpan : Option ℤ × Option ℤ)
    (scoreReader scoreAnswerInDocument : ℚ) : Option MachineReaderAnswer :=
  if text.isSome ∧ longText.isSome
      ∧ 0 ≤ scoreReader ∧ scoreReader ≤ 1
      ∧ 0 ≤ scoreAnswerInDocument ∧ scoreAnswerInDocument ≤ 1
      ∧ (span.1.isSome → span.2.isSome) ∧ (span.2.isSome → span.1.isSome)
      ∧ (longTextSpan.1.isSome → longTextSpan.2.isSome)
      ∧ (longTextSpan.2.isSome → longTextSpan.1.isSome)
  then some ⟨text, span, longText, longTextSpan, scoreReader, scoreAnswerInDocument⟩
  else none

/-! ## Embedding of `cape_machine_reader_core.py` -/

/-- The pluggable external model (`CapeMachineReaderModelInterface`):
`tokenize` returns tokens and character offsets, `getDocumentEmbedding` a 2-d
array, `getLogits` start and end logit vectors. -/
structure Model where
  tokenize : String → List String × List (ℕ × ℕ)
  getDocumentEmbedding : String → List (List ℚ)
  getLogits : String → List (List ℚ) → List ℚ × List ℚ

/-- Invocations of the external model's embedding / logit computations,
recorded in call order to make "the model was invoked" observable. -/
inductive ModelCall where
  | embeddingCall (text : String)
  | logitsCall (question : String)
deriving DecidableEq

/-- The failure conditions of the orchestrator. -/
inductive CoreError where
  /-- Python `UnboundLocalError`: in `get_logits`, `doc` is referenced by the
  token counting but only assigned inside the `document_embedding is None`
  branch. -/
  | unboundLocalDoc
  /-- `assert n_total == (n_before + n_text + n_after)` failed. -/
  | assertTokenCounts (nTotal nBefore nText nAfter : ℕ)
  /-- `np.concatenate` of an empty list of arrays. -/
  | concatenateEmpty
  /-- `assert len(logits_array_start) == self._count_tokens(all_combined_texts)`
  failed. -/
  | assertLogitsLength (got expected : ℕ)
  /-- `np.max` of an empty array inside `softmax`. -/
  | emptyMax
  /-- `next(iterator)` exhausted: fewer decoded spans than `top_k`. -/
  | stopIteration
  /-- An `assert` in `MachineReaderAnswer.__init__` failed. -/
  | answerAssertion
deriving DecidableEq

/-- `MachineReaderConfiguration`. -/
structure Configuration where
  thresholdReader : ℚ
  thresholdAnswerInDocument : ℚ
  topK : ℕ

/-- `MachineReader._combine_overlaps`. -/
def combineOverlaps (text before after : String) : String :=
  before ++ text ++ after

/-- `MachineReader._count_tokens`. -/
def countTokens (m : Model) (text : String) : ℕ :=
  (m.tokenize text).1.length

/-- `MachineReader.get_logits`.  Besides the result, the list of model
embedding/logit invocations is returned in call order.  When a document
embedding is supplied, the branch assigning `doc` is skipped and the token
counting raises `UnboundLocalError` before anything else happens. -/
def getLogits (m : Model) (text question before after : String)
    (documentEmbedding : Option (List (List ℚ))) :
    Except CoreError ((List ℚ × List ℚ) × (ℕ × ℕ)) × List ModelCall :=
  match documentEmbedding with
  | some _ => (.error .unboundLocalDoc, [])
  | none =>
    let doc := combineOverlaps text before after
    let nTotal := countTokens m doc
    let nBefore := countTokens m before
    let nText := countTokens m text
    let nAfter := countTokens m after
    if nTotal = nBefore + nText + nAfter then
      (.ok (m.getLogits question (m.getDocumentEmbedding doc), (nBefore, nAfter)),
       [.embeddingCall doc, .logitsCall question])
    else
      (.error (.assertTokenCounts nTotal nBefore nText nAfter), [.embeddingCall doc])

/-- `MachineReader.get_document_embedding` (no validation of any kind is
performed before delegating to the model). -/
def getDocumentEmbedding (m : Model) (text before after : String) : List (List ℚ) :=
  m.getDocumentEmbedding (combineOverlaps text before after)

/-- The two `np.concatenate` calls of `get_answers_from_logits` plus the
stitched-length assert.  `zip` truncates to the shorter of the two lists; a
`np.concatenate` over zero arrays raises. -/
def stitchLogits (m : Model) (allTheLogits : List (List ℚ × List ℚ))
    (allTheOverlaps : List (ℕ × ℕ)) (allCombinedTexts : String) :
    Except CoreError (List ℚ × List ℚ) :=
  let pairs := allTheLogits.zip allTheOverlaps
  if pairs.isEmpty then .error .concatenateEmpty
  else
    let startArr := (pairs.map (fun p => pySlice p.1.1 p.2.1 (p.1.1.length - p.2.2))).flatten
    let endArr := (pairs.map (fun p => pySlice p.1.2 p.2.1 (p.1.2.length - p.2.2))).flatten
    if startArr.length = countTokens m allCombinedTexts then .ok (startArr, endArr)
    else .error (.assertLogitsLength startArr.length (countTokens m allCombinedTexts))

/-- The `for answer_span in answer_spans:` loop of `get_answers_from_logits`:
`score_answer_in_document` is hardcoded to `0.`; a record passing both
thresholds is converted into a `MachineReaderAnswer` (whose constructor may
raise), the first failing record stops the iteration.  (The source also
computes an unnormalised `l1 + l2` score from the logit arrays at this point;
it is dead code and not modelled.) -/
def yieldAnswers (cfg : Configuration) : List AnswerSpanRec →
    Except CoreError (List MachineReaderAnswer)
  | [] => .ok []
  | r :: rest =>
    if cfg.thresholdReader ≤ r.score ∧ cfg.thresholdAnswerInDocument ≤ (0 : ℚ) then
      match mkMachineReaderAnswer (some r.answerText)
          (some (r.characterIndices.1 : ℤ), some (r.characterIndices.2 : ℤ))
          (some r.longAnswerText)
          (some (r.longCharacterIndices.1 : ℤ), some (r.longCharacterIndices.2 : ℤ))
          r.score 0 with
      | none => .error .answerAssertion
      | some a =>
        match yieldAnswers cfg rest with
        | .error e => .error e
        | .ok tl => .ok (a :: tl)
    else .ok []

/-- `MachineReader.get_answers_from_logits` (the generator body, run to
completion): stitch the chunk logits, apply the global softmax, decode the
top-`k` spans and filter them by the thresholds. -/
def getAnswersFromLogits (m : Model) (expQ : ℚ → ℚ) (cfg : Configuration)
    (allTheLogits : List (List ℚ × List ℚ)) (allTheOverlaps : List (ℕ × ℕ))
    (allCombinedTexts : String) (fuel : ℕ) :
    Except CoreError (List MachineReaderAnswer) :=
  match stitchLogits m allTheLogits allTheOverlaps allCombinedTexts with
  | .error e => .error e
  | .ok (startArr, endArr) =>
    match softmax expQ startArr with
    | .error _ => .error .emptyMax
    | .ok ypStart =>
      match softmax expQ endArr with
      | .error _ => .error .emptyMax
      | .ok ypEnd =>
        let contextOffsets := (m.tokenize allCombinedTexts).2
        match findBestSpans allCombinedTexts.data contextOffsets ypStart ypEnd cfg.topK fuel with
        | .error _ => .error .stopIteration
        | .ok spans => yieldAnswers cfg spans

/-- `MachineReader.get_answers`: single-chunk wrapper.  The eager part is
`get_logits` (which invokes the model); the generator returned by
`get_answers_from_logits` is modelled as run to completion here. -/
def getAnswers (m : Model) (expQ : ℚ → ℚ) (cfg : Configuration)
    (documentText question : String) (fuel : ℕ) :
    Except CoreError (List MachineReaderAnswer) × List ModelCall :=
  match getLogits m documentText question "" "" none with
  | (.error e, calls) => (.error e, calls)
  | (.ok (logits, overlaps), calls) =>
    (getAnswersFromLogits m expQ cfg [logits] [overlaps] documentText fuel, calls)

/-! ## Specification-side definitions used to state the properties -/

/-- The decayed objective value the selection scan maximizes at position `i`:
`cummax_y_start[i] * max(0, y2[i] * (1 - 0.01 * (i - cumargmax_y_start[i])))`. -/
def decayedObjective (y1 y2 : List ℚ) (i : ℕ) : ℚ :=
  (maximumAccumulate y1).getD i 0 *
    max 0 (y2.getD i 0 *
      (1 - proportionToDecay * ((i : ℚ) - (((cumargmaxYStart y1).getD i 0 : ℕ) : ℚ))))

/-- The suppressed ranges of the yields that happened while the retry budget
was still positive (the phase in which the duplicate-overlap guard is
active). -/
def budgetRanges (fuel : ℕ) (s : DecoderState) : List (ℕ × ℕ) :=
  ((runDecoderTrace fuel s).filter (fun t => decide (0 < t.2.2))).map (fun t => t.2.1)

/-- A concrete stand-in model: the empty string tokenizes to zero tokens, any
other string is a single token. -/
def stubModel : Model :=
  ⟨fun s => if s = "" then ([], []) else ([s], [(0, s.length)]),
   fun _ => [],
   fun _ _ => ([], [])⟩

/-- A concrete stand-in model for the stitching counterexample: the string
`"ctx"` tokenizes to five tokens. -/
def fiveTokenModel : Model :=
  ⟨fun s => if s = "ctx" then (["a", "b", "c", "d", "e"], [(0, 1), (1, 2), (2, 3), (3, 4), (4, 5)])
            else ([], []),
   fun _ => [],
   fun _ _ => ([], [])⟩

/-- A concrete stand-in for `np.exp` used when evaluating closed runs whose
outcome does not depend on the exponential's values. -/
def expOne : ℚ → ℚ := fun _ => 1

/-! ## Lemmas about `np.maximum.accumulate` -/

theorem maxAccumFrom_length {α : Type} [LinearOrder α] (m : α) (l : List α) :
    (maxAccumFrom m l).length = l.length := by
  induction l generalizing m with
  | nil => rfl
  | cons x xs ih => simp [maxAccumFrom, ih]

theorem maximumAccumulate_length {α : Type} [LinearOrder α] (l : List α) :
    (maximumAccumulate l).length = l.length := by
  cases l with
  | nil => rfl
  | cons x xs => simp [maximumAccumulate, maxAccumFrom_length]

theorem maxAccumFrom_getD_succ {α : Type} [LinearOrder α] (m d : α) (l : List α) (i : ℕ)
    (h : i + 1 < l.length) :
    (maxAccumFrom m l).getD (i + 1) d =
      max ((maxAccumFrom m l).getD i d) (l.getD (i + 1) d) := by
  induction l generalizing m i with
  | nil => simp at h
  | cons x xs ih =>
    cases i with
    | zero =>
      cases xs with
      | nil => simp at h
      | cons y ys => simp [maxAccumFrom, max_assoc]
    | succ i =>
      have h' : i + 1 < xs.length := by simpa using h
      simpa [maxAccumFrom] using ih (max m x) i h'

theorem maximumAccumulate_getD_zero {α : Type} [LinearOrder α] (d : α) (l : List α)
    (h : 0 < l.length) : (maximumAccumulate l).getD 0 d = l.getD 0 d := by
  cases l with
  | nil => simp at h
  | cons x xs => simp [maximumAccumulate]

theorem maximumAccumulate_getD_succ {α : Type} [LinearOrder α] (d : α) (l : List α) (i : ℕ)
    (h : i + 1 < l.length) :
    (maximumAccumulate l).getD (i + 1) d =
      max ((maximumAccumulate l).getD i d) (l.getD (i + 1) d) := by
  cases l with
  | nil => simp at h
  | cons x xs =>
    cases i with
    | zero =>
      cases xs with
      | nil => simp at h
      | cons y ys => simp [maximumAccumulate, maxAccumFrom]
    | succ i =>
      have h' : i + 1 < xs.length := by
        simp only [List.length_cons] at h
        omega
      simpa [maximumAccumulate] using maxAccumFrom_getD_succ x d xs i h'

/-- Every prefix entry is bounded by the running maximum. -/
theorem getD_le_maximumAccumulate {α : Type} [LinearOrder α] (d : α) (l : List α)
    (i j : ℕ) (hj : j ≤ i) (hi : i < l.length) :
    l.getD j d ≤ (maximumAccumulate l).getD i d := by
  induction i with
  | zero =>
    have hj0 : j = 0 := Nat.le_zero.mp hj
    subst hj0
    exact le_of_eq (maximumAccumulate_getD_zero d l hi).symm
  | succ i ih =>
    rw [maximumAccumulate_getD_succ d l i hi]
    rcases Nat.lt_or_ge j (i + 1) with hlt | hge
    · exact le_trans (ih (Nat.lt_succ_iff.mp hlt) (by omega)) (le_max_left _ _)
    · have hji : j = i + 1 := by omega
      subst hji
      exact le_max_right _ _

/-- The running maximum is achieved at a position that is itself a running
maximum (the first achiever): there is `j ≤ i` with `l[j] = cummax[j]` and
`cummax[j] = cummax[i]`. -/
theorem maximumAccumulate_achieved {α : Type} [LinearOrder α] (d : α) (l : List α)
    (i : ℕ) (hi : i < l.length) :
    ∃ j, j ≤ i ∧ l.getD j d = (maximumAccumulate l).getD j d ∧
      (maximumAccumulate l).getD j d = (maximumAccumulate l).getD i d := by
  induction i with
  | zero => exact ⟨0, le_refl 0, (maximumAccumulate_getD_zero d l hi).symm, rfl⟩
  | succ i ih =>
    obtain ⟨j, hj, hq, he⟩ := ih (by omega)
    rcases le_total (l.getD (i + 1) d) ((maximumAccumulate l).getD i d) with hle | hle
    · refine ⟨j, by omega, hq, ?_⟩
      rw [he, maximumAccumulate_getD_succ d l i hi, max_eq_left hle]
    · refine ⟨i + 1, le_refl _, ?_, rfl⟩
      rw [maximumAccumulate_getD_succ d l i hi, max_eq_right hle]

/-- The running maximum is monotone. -/
theorem maximumAccumulate_mono {α : Type} [LinearOrder α] (d : α) (l : List α)
    (i j : ℕ) (hij : i ≤ j) (hj : j < l.length) :
    (maximumAccumulate l).getD i d ≤ (maximumAccumulate l).getD j d := by
  induction j with
  | zero =>
    have hi0 : i = 0 := Nat.le_zero.mp hij
    subst hi0; exact le_refl _
  | succ j ih =>
    rcases Nat.lt_or_ge i (j + 1) with hlt | hge
    · rw [maximumAccumulate_getD_succ d l j hj]
      exact le_trans (ih (Nat.lt_succ_iff.mp hlt) (by omega)) (le_max_left _ _)
    · have hij' : i = j + 1 := by omega
      subst hij'; exact le_refl _

/-! ## Lemmas about the prefix argmax `cumargmax_y_start` -/

theorem getD_range_map {β : Type} (f : ℕ → β) (n i : ℕ) (d : β) (h : i < n) :
    ((List.range n).map f).getD i d = f i := by
  rw [List.getD_eq_getElem _ _ (by simpa using h)]
  simp

theorem cumargmaxMask_length (y1 : List ℚ) : (cumargmaxMask y1).length = y1.length := by
  simp [cumargmaxMask]

theorem cumargmaxMask_getD (y1 : List ℚ) (i : ℕ) (hi : i < y1.length) :
    (cumargmaxMask y1).getD i 0 =
      if y1.getD i 0 = (maximumAccumulate y1).getD i 0 then i else 0 := by
  simp only [cumargmaxMask]
  exact getD_range_map _ _ i 0 hi

theorem cumargmaxYStart_length (y1 : List ℚ) :
    (cumargmaxYStart y1).length = y1.length := by
  simp [cumargmaxYStart, maximumAccumulate_length, cumargmaxMask_length]

/-- The prefix argmax is bounded by its position. -/
theorem cumargmaxYStart_le (y1 : List ℚ) (i : ℕ) (hi : i < y1.length) :
    (cumargmaxYStart y1).getD i 0 ≤ i := by
  have hlen : i < (cumargmaxMask y1).length := by rwa [cumargmaxMask_length]
  obtain ⟨j, hj, hq, he⟩ := maximumAccumulate_achieved 0 (cumargmaxMask y1) i hlen
  have hach : (cumargmaxYStart y1).getD i 0 = (cumargmaxMask y1).getD j 0 := by
    rw [cumargmaxYStart, ← he, ← hq]
  have hmask : (cumargmaxMask y1).getD j 0 ≤ j := by
    rw [cumargmaxMask_getD y1 j (by omega)]
    split <;> omega
  omega

/-- The start probability at the prefix argmax equals the running maximum:
`y1[cumargmax_y_start[i]] = cummax_y_start[i]`. -/
theorem cumargmaxYStart_achieves (y1 : List ℚ) (i : ℕ) (hi : i < y1.length) :
    y1.getD ((cumargmaxYStart y1).getD i 0) 0 = (maximumAccumulate y1).getD i 0 := by
  have hlen : i < (cumargmaxMask y1).length := by rwa [cumargmaxMask_length]
  set a := (cumargmaxYStart y1).getD i 0 with ha
  have hai : a ≤ i := cumargmaxYStart_le y1 i hi
  -- `a` qualifies: `y1[a] = cummax[a]`
  have haq : y1.getD a 0 = (maximumAccumulate y1).getD a 0 := by
    obtain ⟨j, hj, hq, he⟩ := maximumAccumulate_achieved 0 (cumargmaxMask y1) i hlen
    have haj : a = (cumargmaxMask y1).getD j 0 := by
      rw [ha, cumargmaxYStart, ← he, ← hq]
    rw [cumargmaxMask_getD y1 j (by omega)] at haj
    by_cases hcase : y1.getD j 0 = (maximumAccumulate y1).getD j 0
    · rw [if_pos hcase] at haj; rw [haj]; exact hcase
    · rw [if_neg hcase] at haj; rw [haj]
      exact (maximumAccumulate_getD_zero 0 y1 (by omega)).symm
  -- `cummax[a] = cummax[i]`
  have hle : (maximumAccumulate y1).getD a 0 ≤ (maximumAccumulate y1).getD i 0 :=
    maximumAccumulate_mono 0 y1 a i hai hi
  have hge : (maximumAccumulate y1).getD i 0 ≤ (maximumAccumulate y1).getD a 0 := by
    obtain ⟨j, hj, hq, he⟩ := maximumAccumulate_achieved 0 y1 i hi
    -- `j` qualifies, so `mask[j] = j` and hence `j ≤ a`
    have hmask : (cumargmaxMask y1).getD j 0 = j := by
      rw [cumargmaxMask_getD y1 j (by omega), if_pos hq]
    have hja : j ≤ a := by
      have hb := getD_le_maximumAccumulate 0 (cumargmaxMask y1) i j hj hlen
      rw [hmask] at hb
      rw [ha, cumargmaxYStart]
      exact hb
    calc (maximumAccumulate y1).getD i 0 = (maximumAccumulate y1).getD j 0 := he.symm
      _ ≤ (maximumAccumulate y1).getD a 0 := maximumAccumulate_mono 0 y1 j a hja (by omega)
  rw [haq]
  exact le_antisymm hle hge

/-- Any position `j ≤ i` achieving the running maximum is at most the prefix
argmax: the scheme keeps the latest achiever. -/
theorem cumargmaxYStart_latest (y1 : List ℚ) (i : ℕ) (hi : i < y1.length)
    (j : ℕ) (hj : j ≤ i) (hach : y1.getD j 0 = (maximumAccumulate y1).getD i 0) :
    j ≤ (cumargmaxYStart y1).getD i 0 := by
  have hlen : i < (cumargmaxMask y1).length := by rwa [cumargmaxMask_length]
  -- `j` qualifies: `y1[j] = cummax[j]`
  have hq : y1.getD j 0 = (maximumAccumulate y1).getD j 0 := by
    have h1 : y1.getD j 0 ≤ (maximumAccumulate y1).getD j 0 :=
      getD_le_maximumAccumulate 0 y1 j j (le_refl j) (by omega)
    have h2 : (maximumAccumulate y1).getD j 0 ≤ (maximumAccumulate y1).getD i 0 :=
      maximumAccumulate_mono 0 y1 j i hj hi
    rw [hach] at h1
    rw [hach]
    exact le_antisymm h1 h2
  have hmask : (cumargmaxMask y1).getD j 0 = j := by
    rw [cumargmaxMask_getD y1 j (by omega), if_pos hq]
  have hb := getD_le_maximumAccumulate 0 (cumargmaxMask y1) i j hj hlen
  rw [hmask] at hb
  rw [cumargmaxYStart]
  exact hb

/-! ## Lemmas about `zeroRange` and the decoder step -/

theorem zeroRange_length (l : List ℚ) (a b : ℕ) : (zeroRange l a b).length = l.length := by
  simp [zeroRange]

theorem zeroRange_getD (l : List ℚ) (a b i : ℕ) (hi : i < l.length) :
    (zeroRange l a b).getD i 0 = if a ≤ i ∧ i < b then 0 else l.getD i 0 := by
  simp only [zeroRange]
  exact getD_range_map _ _ i 0 hi

theorem sum_pos_of_epsilon_lt {l : List ℚ} (h : EPSILON < l.sum) : 0 < l.length := by
  cases l with
  | nil => norm_num [EPSILON] at h
  | cons x xs => simp

/-- Inversion of a `skipped` decoder step. -/
theorem decoderStep_skipped_inv {s s' : DecoderState}
    (h : decoderStep s = .skipped s') :
    EPSILON < s.y1.sum ∧ 0 < s.cont ∧
    intersectsUsed s.used (suppressedRange s) = true ∧
    s'.y1 = zeroRange s.y1 (suppressedRange s).1 (suppressedRange s).2 ∧
    s'.y2 = zeroRange s.y2 (suppressedRange s).1 (suppressedRange s).2 ∧
    s'.used = s.used ∧ s'.cont = s.cont - 1 := by
  simp only [decoderStep] at h
  split_ifs at h with h1 h2 h3
  cases h
  exact ⟨h1, h2, h3, rfl, rfl, rfl, rfl⟩

/-- Inversion of a `yielded` decoder step. -/
theorem decoderStep_yielded_inv {s : DecoderState} {sp : ℕ × ℕ} {sc : ℚ}
    {s' : DecoderState} (h : decoderStep s = .yielded sp sc s') :
    EPSILON < s.y1.sum ∧
    sp = ((selectSpan s.y1 s.y2).optS, (selectSpan s.y1 s.y2).optE) ∧
    sc = s.y1.getD (selectSpan s.y1 s.y2).optS 0 *
      s.y2.getD (selectSpan s.y1 s.y2).optE 0 ∧
    s'.y1 = zeroRange s.y1 (suppressedRange s).1 (suppressedRange s).2 ∧
    s'.y2 = zeroRange s.y2 (suppressedRange s).1 (suppressedRange s).2 ∧
    ((0 < s.cont ∧ intersectsUsed s.used (suppressedRange s) = false ∧
      s'.used = s.used ++ [suppressedRange s] ∧ s'.cont = s.cont) ∨
     (s.cont = 0 ∧ s'.used = s.used ∧ s'.cont = s.cont)) := by
  simp only [decoderStep] at h
  split_ifs at h with h1 h2 h3
  · cases h
    exact ⟨h1, rfl, rfl, rfl, rfl,
      Or.inl ⟨h2, by simpa using h3, rfl, rfl⟩⟩
  · cases h
    exact ⟨h1, rfl, rfl, rfl, rfl, Or.inr ⟨by omega, rfl, rfl⟩⟩

/-- A non-`done` decoder step zeroes the suppressed range of both buffers and
preserves their lengths. -/
theorem stepState_some_inv {s s' : DecoderState} (h : stepState s = some s') :
    EPSILON < s.y1.sum ∧
    s'.y1 = zeroRange s.y1 (suppressedRange s).1 (suppressedRange s).2 ∧
    s'.y2 = zeroRange s.y2 (suppressedRange s).1 (suppressedRange s).2 := by
  unfold stepState at h
  cases hstep : decoderStep s with
  | done => rw [hstep] at h; cases h
  | skipped t =>
    rw [hstep] at h
    cases h
    obtain ⟨h1, _, _, hy1, hy2, _, _⟩ := decoderStep_skipped_inv hstep
    exact ⟨h1, hy1, hy2⟩
  | yielded sp sc t =>
    rw [hstep] at h
    cases h
    obtain ⟨h1, _, _, hy1, hy2, _⟩ := decoderStep_yielded_inv hstep
    exact ⟨h1, hy1, hy2⟩

theorem stepState_lengths {s s' : DecoderState} (h : stepState s = some s') :
    s'.y1.length = s.y1.length ∧ s'.y2.length = s.y2.length := by
  obtain ⟨_, hy1, hy2⟩ := stepState_some_inv h
  rw [hy1, hy2]
  exact ⟨zeroRange_length _ _ _, zeroRange_length _ _ _⟩

/-! ## Lemmas about the selection scan -/

theorem scanStep_highest_mono (y2 cm : List ℚ) (cam : List ℕ) (acc : ScanAcc) (x : ℕ) :
    acc.highest ≤ (scanStep y2 cm cam acc x).highest := by
  simp only [scanStep]
  split
  · exact le_of_lt (by assumption)
  · exact le_refl _

theorem scanStep_objective_le (y2 cm : List ℚ) (cam : List ℕ) (acc : ScanAcc) (x : ℕ) :
    cm.getD x 0 *
        max 0 (y2.getD x 0 * (1 - proportionToDecay * ((x : ℚ) - (cam.getD x 0 : ℚ)))) ≤
      (scanStep y2 cm cam acc x).highest := by
  simp only [scanStep]
  split
  · exact le_refl _
  · exact le_of_not_lt (by assumption)

theorem scanStep_cases (y2 cm : List ℚ) (cam : List ℕ) (acc : ScanAcc) (x : ℕ) :
    scanStep y2 cm cam acc x = acc ∨
    scanStep y2 cm cam acc x =
      ⟨cam.getD x 0, x,
       cm.getD x 0 *
         max 0 (y2.getD x 0 * (1 - proportionToDecay * ((x : ℚ) - (cam.getD x 0 : ℚ))))⟩ := by
  simp only [scanStep]
  split
  · exact Or.inr rfl
  · exact Or.inl rfl

/-- The scan keeps `optS ≤ optE < N` whenever every scanned index is `< N`
and the prefix argmax is below its position. -/
theorem scan_foldl_bounds (y2 cm : List ℚ) (cam : List ℕ) (N : ℕ)
    (hcam : ∀ i, i < N → cam.getD i 0 ≤ i) (l : List ℕ) (hl : ∀ x ∈ l, x < N)
    (acc : ScanAcc) (hacc : acc.optS ≤ acc.optE ∧ acc.optE < N) :
    (l.foldl (scanStep y2 cm cam) acc).optS ≤ (l.foldl (scanStep y2 cm cam) acc).optE ∧
    (l.foldl (scanStep y2 cm cam) acc).optE < N := by
  induction l generalizing acc with
  | nil => exact hacc
  | cons x xs ih =>
    rw [List.foldl_cons]
    refine ih (fun z hz => hl z (List.mem_cons_of_mem _ hz)) _ ?_
    have hx : x < N := hl x (List.mem_cons_self x xs)
    rcases scanStep_cases y2 cm cam acc x with he | he
    · rw [he]; exact hacc
    · rw [he]; exact ⟨hcam x hx, hx⟩

/-- The final `highest` of the scan dominates the seed and the decayed
objective of every scanned position. -/
theorem scan_foldl_dominates (y2 cm : List ℚ) (cam : List ℕ) (l : List ℕ) (acc : ScanAcc) :
    acc.highest ≤ (l.foldl (scanStep y2 cm cam) acc).highest ∧
    ∀ x ∈ l,
      cm.getD x 0 *
          max 0 (y2.getD x 0 * (1 - proportionToDecay * ((x : ℚ) - (cam.getD x 0 : ℚ)))) ≤
        (l.foldl (scanStep y2 cm cam) acc).highest := by
  induction l generalizing acc with
  | nil => exact ⟨le_refl _, by simp⟩
  | cons x xs ih =>
    rw [List.foldl_cons]
    obtain ⟨ih1, ih2⟩ := ih (scanStep y2 cm cam acc x)
    refine ⟨le_trans (scanStep_highest_mono y2 cm cam acc x) ih1, ?_⟩
    intro z hz
    rcases List.mem_cons.mp hz with hz | hz
    · subst hz
      exact le_trans (scanStep_objective_le y2 cm cam acc z) ih1
    · exact ih2 z hz

/-- The scan result is either the seed accumulator or the candidate built at
one of the scanned positions. -/
theorem scan_foldl_origin (y2 cm : List ℚ) (cam : List ℕ) (l : List ℕ) (acc : ScanAcc) :
    l.foldl (scanStep y2 cm cam) acc = acc ∨
    ∃ i ∈ l, l.foldl (scanStep y2 cm cam) acc =
      ⟨cam.getD i 0, i,
       cm.getD i 0 *
         max 0 (y2.getD i 0 * (1 - proportionToDecay * ((i : ℚ) - (cam.getD i 0 : ℚ))))⟩ := by
  induction l generalizing acc with
  | nil => exact Or.inl rfl
  | cons x xs ih =>
    rw [List.foldl_cons]
    rcases scanStep_cases y2 cm cam acc x with he | he
    · rw [he]
      rcases ih acc with h | ⟨i, hi, h⟩
      · exact Or.inl h
      · exact Or.inr ⟨i, List.mem_cons_of_mem _ hi, h⟩
    · rw [he]
      rcases ih _ with h | ⟨i, hi, h⟩
      · exact Or.inr ⟨x, List.mem_cons_self x xs, by rw [h]⟩
      · exact Or.inr ⟨i, List.mem_cons_of_mem _ hi, h⟩

/-- Bounds for the selected span of one iteration. -/
theorem selectSpan_bounds (y1 y2 : List ℚ) (hlen : y1.length = y2.length)
    (hpos : 0 < y1.length) :
    (selectSpan y1 y2).optS ≤ (selectSpan y1 y2).optE ∧
    (selectSpan y1 y2).optE < y1.length := by
  unfold selectSpan
  refine scan_foldl_bounds y2 (maximumAccumulate y1) (cumargmaxYStart y1) y1.length
    (fun i hi => cumargmaxYStart_le y1 i hi) _ ?_ _ ⟨le_refl 0, hpos⟩
  intro x hx
  have hx' : x ∈ List.range y2.length := List.mem_of_mem_drop hx
  have := List.mem_range.mp hx'
  omega

theorem stepState_of_skipped {s s' : DecoderState} (h : decoderStep s = .skipped s') :
    stepState s = some s' := by
  unfold stepState
  rw [h]

theorem stepState_of_yielded {s s' : DecoderState} {sp : ℕ × ℕ} {sc : ℚ}
    (h : decoderStep s = .yielded sp sc s') : stepState s = some s' := by
  unfold stepState
  rw [h]

/-- Along any run, every yielded span is within bounds. -/
theorem run_spans_bounds : ∀ (fuel : ℕ) (s : DecoderState),
    s.y1.length = s.y2.length →
    ∀ p ∈ runDecoder fuel s, p.1.1 ≤ p.1.2 ∧ p.1.2 < s.y1.length := by
  intro fuel
  induction fuel with
  | zero =>
    intro s _ p hp
    simp [runDecoder, runDecoderTrace] at hp
  | succ fuel ih =>
    intro s hlen p hp
    cases hstep : decoderStep s with
    | done => simp [runDecoder, runDecoderTrace, hstep] at hp
    | skipped s' =>
      simp only [runDecoder, runDecoderTrace, hstep] at hp
      obtain ⟨hl1, hl2⟩ := stepState_lengths (stepState_of_skipped hstep)
      have := ih s' (by omega) p (by simpa [runDecoder] using hp)
      exact ⟨this.1, by omega⟩
    | yielded sp sc s' =>
      obtain ⟨h1, hsp, _, _, _, _⟩ := decoderStep_yielded_inv hstep
      have hpos : 0 < s.y1.length := sum_pos_of_epsilon_lt h1
      simp only [runDecoder, runDecoderTrace, hstep, List.map_cons, List.mem_cons] at hp
      rcases hp with hp | hp
      · have hb := selectSpan_bounds s.y1 s.y2 hlen hpos
        rw [hp, hsp]
        exact hb
      · obtain ⟨hl1, hl2⟩ := stepState_lengths (stepState_of_yielded hstep)
        have := ih s' (by omega) p (by simpa [runDecoder] using hp)
        exact ⟨this.1, by omega⟩

/-- **C7.** For every pair of input probability vectors of equal length, every
span `(start_index, end_index)` yielded by `find_answer_spans` satisfies
`0 ≤ start_index ≤ end_index ≤ N - 1`. -/
theorem claim_C7_decoded_spans_in_bounds (y1 y2 : List ℚ) (fuel : ℕ)
    (hlen : y1.length = y2.length) :
    ∀ p ∈ runDecoder fuel (initState y1 y2),
      p.1.1 ≤ p.1.2 ∧ p.1.2 ≤ y1.length - 1 := by
  intro p hp
  have h := run_spans_bounds fuel (initState y1 y2) hlen p hp
  have h2 := h.2
  exact ⟨h.1, by simp only [initState] at h2; omega⟩

/-- Witness for C7 at a concrete input. -/
theorem claim_C7_witness :
    [(1:ℚ)/2, 1/2].length = [(1:ℚ)/2, 1/2].length ∧
    ∀ p ∈ runDecoder 1 (initState [(1:ℚ)/2, 1/2] [(1:ℚ)/2, 1/2]),
      p.1.1 ≤ p.1.2 ∧ p.1.2 ≤ [(1:ℚ)/2, 1/2].length - 1 :=
  ⟨rfl, claim_C7_decoded_spans_in_bounds [(1:ℚ)/2, 1/2] [(1:ℚ)/2, 1/2] 1 rfl⟩

/-- **C2** (amended): in every iteration, the prefix scan computes at each
position the running maximum of `start_probs` and an index achieving it, and
when the running maximum is tied at several positions the retained
prefix-argmax index is the **latest** achieving index (the mask construction
marks every position where the value equals the running maximum, and the
subsequent maximum-accumulate keeps the largest such position). -/
theorem claim_C2_prefix_argmax_latest (y1 : List ℚ) (i : ℕ) (hi : i < y1.length) :
    (cumargmaxYStart y1).getD i 0 ≤ i ∧
    y1.getD ((cumargmaxYStart y1).getD i 0) 0 = (maximumAccumulate y1).getD i 0 ∧
    ∀ j ∈ List.range (i + 1),
      y1.getD j 0 = (maximumAccumulate y1).getD i 0 →
        j ≤ (cumargmaxYStart y1).getD i 0 :=
  ⟨cumargmaxYStart_le y1 i hi, cumargmaxYStart_achieves y1 i hi,
   fun j hj hach =>
     cumargmaxYStart_latest y1 i hi j (Nat.lt_succ_iff.mp (List.mem_range.mp hj)) hach⟩

/-- **C2** counterexample: on the tied input `[1/2, 1/2]` the running maximum
at position 1 is already achieved at position 0 (the earliest achieving index
is 0), but the retained prefix-argmax index is 1 — the scheme keeps the
latest, not the earliest, achieving index. -/
theorem claim_C2_counterexample :
    (cumargmaxYStart [(1:ℚ)/2, 1/2]).getD 1 0 = 1 ∧
    [(1:ℚ)/2, 1/2].getD 0 0 = (maximumAccumulate [(1:ℚ)/2, 1/2]).getD 1 0 := by
  norm_num [cumargmaxYStart, cumargmaxMask, maximumAccumulate, maxAccumFrom,
    List.range_succ]

/-- Witness for C2 at a concrete input. -/
theorem claim_C2_witness :
    1 < [(1:ℚ)/2, 1/2].length ∧
    ((cumargmaxYStart [(1:ℚ)/2, 1/2]).getD 1 0 ≤ 1 ∧
     [(1:ℚ)/2, 1/2].getD ((cumargmaxYStart [(1:ℚ)/2, 1/2]).getD 1 0) 0 =
       (maximumAccumulate [(1:ℚ)/2, 1/2]).getD 1 0 ∧
     ∀ j ∈ List.range 2,
       [(1:ℚ)/2, 1/2].getD j 0 = (maximumAccumulate [(1:ℚ)/2, 1/2]).getD 1 0 →
         j ≤ (cumargmaxYStart [(1:ℚ)/2, 1/2]).getD 1 0) :=
  ⟨by norm_num, claim_C2_prefix_argmax_latest [(1:ℚ)/2, 1/2] 1 (by norm_num)⟩

theorem getD_nonneg {l : List ℚ} (h : ∀ x ∈ l, 0 ≤ x) (i : ℕ) : 0 ≤ l.getD i 0 := by
  rcases Nat.lt_or_ge i l.length with hi | hi
  · rw [List.getD_eq_getElem _ _ hi]
    exact h _ (List.getElem_mem hi)
  · rw [List.getD_eq_default _ _ hi]

/-- The yielded score dominates the final `highest` of the selection scan. -/
theorem selectSpan_highest_le_score (y1 y2 : List ℚ) (hlen : y1.length = y2.length)
    (h1nn : ∀ x ∈ y1, 0 ≤ x) (h2nn : ∀ x ∈ y2, 0 ≤ x) :
    (selectSpan y1 y2).highest ≤
      y1.getD (selectSpan y1 y2).optS 0 * y2.getD (selectSpan y1 y2).optE 0 := by
  rcases scan_foldl_origin y2 (maximumAccumulate y1) (cumargmaxYStart y1)
      ((List.range y2.length).drop 1) ⟨0, 0, y1.getD 0 0 * y2.getD 0 0⟩ with ho | ⟨i, hi, ho⟩
  · rw [selectSpan, ho]
  · have hiN : i < y2.length := List.mem_range.mp (List.mem_of_mem_drop hi)
    have hiN1 : i < y1.length := by omega
    have hsel : selectSpan y1 y2 =
        ⟨(cumargmaxYStart y1).getD i 0, i,
         (maximumAccumulate y1).getD i 0 *
           max 0 (y2.getD i 0 *
             (1 - proportionToDecay * ((i : ℚ) - ((cumargmaxYStart y1).getD i 0 : ℚ))))⟩ := by
      rw [selectSpan]; exact ho
    rw [hsel]
    have hach : y1.getD ((cumargmaxYStart y1).getD i 0) 0 = (maximumAccumulate y1).getD i 0 :=
      cumargmaxYStart_achieves y1 i hiN1
    have hcmnn : 0 ≤ (maximumAccumulate y1).getD i 0 :=
      le_trans (getD_nonneg h1nn 0) (getD_le_maximumAccumulate 0 y1 i 0 (Nat.zero_le i) hiN1)
    have hy2nn : 0 ≤ y2.getD i 0 := getD_nonneg h2nn i
    have hdec : max 0 (y2.getD i 0 *
        (1 - proportionToDecay * ((i : ℚ) - ((cumargmaxYStart y1).getD i 0 : ℚ)))) ≤
        y2.getD i 0 := by
      have hcam : (cumargmaxYStart y1).getD i 0 ≤ i := cumargmaxYStart_le y1 i hiN1
      have hdist : (0 : ℚ) ≤ (i : ℚ) - ((cumargmaxYStart y1).getD i 0 : ℚ) := by
        have : ((cumargmaxYStart y1).getD i 0 : ℚ) ≤ (i : ℚ) := by exact_mod_cast hcam
        linarith
      have hfac : 1 - proportionToDecay * ((i : ℚ) - ((cumargmaxYStart y1).getD i 0 : ℚ)) ≤ 1 := by
        have : 0 ≤ proportionToDecay * ((i : ℚ) - ((cumargmaxYStart y1).getD i 0 : ℚ)) := by
          have hp : (0 : ℚ) ≤ proportionToDecay := by norm_num [proportionToDecay]
          exact mul_nonneg hp hdist
        linarith
      exact max_le hy2nn (mul_le_of_le_one_right hy2nn hfac)
    calc (maximumAccumulate y1).getD i 0 *
          max 0 (y2.getD i 0 *
            (1 - proportionToDecay * ((i : ℚ) - ((cumargmaxYStart y1).getD i 0 : ℚ))))
        ≤ (maximumAccumulate y1).getD i 0 * y2.getD i 0 :=
          mul_le_mul_of_nonneg_left hdec hcmnn
      _ = y1.getD ((cumargmaxYStart y1).getD i 0) 0 * y2.getD i 0 := by rw [hach]

/-- **C3** (amended): each reported score is the undecayed product
`start_probs[start] * end_probs[end]` of the current (partially zeroed)
vectors, and within one iteration it dominates the decayed objective of the
seed candidate `(0,0)` and of every scanned position.  Scores of successive
yields are however **not** non-increasing in general (see the
counterexample): the decay is applied while selecting but not while
reporting, so a later yield can report a larger undecayed product. -/
theorem claim_C3_score_is_undecayed_product (s : DecoderState) (sp : ℕ × ℕ)
    (sc : ℚ) (s' : DecoderState)
    (hlen : s.y1.length = s.y2.length)
    (h1nn : ∀ x ∈ s.y1, 0 ≤ x) (h2nn : ∀ x ∈ s.y2, 0 ≤ x)
    (h : decoderStep s = .yielded sp sc s') :
    sc = s.y1.getD sp.1 0 * s.y2.getD sp.2 0 ∧
    s.y1.getD 0 0 * s.y2.getD 0 0 ≤ sc ∧
    ∀ i ∈ (List.range s.y2.length).drop 1, decayedObjective s.y1 s.y2 i ≤ sc := by
  obtain ⟨h1, hsp, hsc, _, _, _⟩ := decoderStep_yielded_inv h
  have hkey : (selectSpan s.y1 s.y2).highest ≤ sc := by
    rw [hsc]
    exact selectSpan_highest_le_score s.y1 s.y2 hlen h1nn h2nn
  have hdom := scan_foldl_dominates s.y2 (maximumAccumulate s.y1) (cumargmaxYStart s.y1)
    ((List.range s.y2.length).drop 1) ⟨0, 0, s.y1.getD 0 0 * s.y2.getD 0 0⟩
  refine ⟨by rw [hsc, hsp], ?_, ?_⟩
  · exact le_trans hdom.1 hkey
  · intro i hi
    have := hdom.2 i hi
    simp only [decayedObjective]
    exact le_trans this hkey

/-- **C3** counterexample: two valid probability vectors on which the second
yielded score is strictly larger than the first.  In the first iteration the
distant span `(3, 4)` is down-weighted by the decay (its decayed objective is
`0.24849 < 0.249`), so the span `(0, 0)` with score `0.249` wins; the second
iteration then selects `(3, 4)` and reports its undecayed product `0.251`. -/
theorem claim_C3_counterexample :
    List.sum [(1:ℚ)/2, 0, 0, 1/2, 0] = 1 ∧
    List.sum [(249:ℚ)/500, 0, 0, 0, 251/500] = 1 ∧
    runDecoder 2 (initState [(1:ℚ)/2, 0, 0, 1/2, 0] [(249:ℚ)/500, 0, 0, 0, 251/500]) =
      [((0, 0), 249/1000), ((3, 4), 251/1000)] ∧
    ¬ ((251:ℚ)/1000 ≤ 249/1000) := by
  refine ⟨by norm_num, by norm_num, ?_, by norm_num⟩
  norm_num [runDecoder, runDecoderTrace, decoderStep, initState, INITIAL_CONTINUATIONS,
    selectSpan, scanStep, cumargmaxYStart, cumargmaxMask, maximumAccumulate, maxAccumFrom,
    zeroRange, suppressedRange, intersectsUsed, intervalsIntersect, EPSILON,
    proportionToDecay, RESET_RANGE, List.range_succ]

/-- Witness for C3 at a concrete yielding step. -/
theorem claim_C3_witness :
    (decoderStep (initState [(1:ℚ)/2, 1/2] [(1:ℚ)/2, 1/2]) =
      .yielded (0, 0) (1/4) ⟨[0, 1/2], [0, 1/2], [(0, 1)], 100⟩) ∧
    ((1:ℚ)/4 = [(1:ℚ)/2, 1/2].getD 0 0 * [(1:ℚ)/2, 1/2].getD 0 0 ∧
     [(1:ℚ)/2, 1/2].getD 0 0 * [(1:ℚ)/2, 1/2].getD 0 0 ≤ (1:ℚ)/4 ∧
     ∀ i ∈ (List.range 2).drop 1,
       decayedObjective [(1:ℚ)/2, 1/2] [(1:ℚ)/2, 1/2] i ≤ (1:ℚ)/4) := by
  have hstep : decoderStep (initState [(1:ℚ)/2, 1/2] [(1:ℚ)/2, 1/2]) =
      .yielded (0, 0) (1/4) ⟨[0, 1/2], [0, 1/2], [(0, 1)], 100⟩ := by
    norm_num [decoderStep, initState, INITIAL_CONTINUATIONS,
      selectSpan, scanStep, cumargmaxYStart, cumargmaxMask, maximumAccumulate, maxAccumFrom,
      zeroRange, suppressedRange, intersectsUsed, intervalsIntersect, EPSILON,
      proportionToDecay, RESET_RANGE, List.range_succ]
  exact ⟨hstep, claim_C3_score_is_undecayed_product _ (0, 0) (1/4) _ rfl
    (by norm_num [initState]) (by norm_num [initState]) hstep⟩

/-! ## C1: (non-)termination of the decoding loop -/

/-- On the stalled state reached from `y1 = [0, 1]`, `y2 = [1, 0]`, every
iteration re-selects the span `(0, 0)`, zeroes a range that holds no
probability mass, and continues (or, once the budget is exhausted, re-yields
forever): the state only loses budget. -/
theorem c1_loop_range (c : ℕ) :
    suppressedRange ⟨[(0:ℚ), 1], [0, 0], [(0, 1)], c⟩ = (0, 1) := by
  norm_num [selectSpan, scanStep, cumargmaxYStart, cumargmaxMask,
    maximumAccumulate, maxAccumFrom, suppressedRange,
    proportionToDecay, RESET_RANGE, List.range_succ]

theorem c1_decoder_step_pos (c : ℕ) (hc : 0 < c) :
    decoderStep ⟨[(0:ℚ), 1], [0, 0], [(0, 1)], c⟩ =
      .skipped ⟨[(0:ℚ), 1], [0, 0], [(0, 1)], c - 1⟩ := by
  have hsum : EPSILON < List.sum [(0:ℚ), 1] := by norm_num [EPSILON]
  have hint : intersectsUsed [((0:ℕ), (1:ℕ))] (0, 1) = true := by
    norm_num [intersectsUsed, intervalsIntersect]
  have hzero1 : zeroRange [(0:ℚ), 1] 0 1 = [(0:ℚ), 1] := by
    norm_num [zeroRange, List.range_succ]
  have hzero2 : zeroRange [(0:ℚ), 0] 0 1 = [(0:ℚ), 0] := by
    norm_num [zeroRange, List.range_succ]
  simp only [decoderStep, hsum, if_true, if_pos hc, c1_loop_range c, hint, hzero1, hzero2]

theorem c1_decoder_step_zero :
    decoderStep ⟨[(0:ℚ), 1], [0, 0], [(0, 1)], 0⟩ =
      .yielded (0, 0) 0 ⟨[(0:ℚ), 1], [0, 0], [(0, 1)], 0⟩ := by
  norm_num [decoderStep, selectSpan, scanStep, cumargmaxYStart, cumargmaxMask,
    maximumAccumulate, maxAccumFrom, zeroRange, suppressedRange, intersectsUsed,
    intervalsIntersect, EPSILON, proportionToDecay, RESET_RANGE, List.range_succ]

theorem c1_loop_step (c : ℕ) :
    stepState ⟨[(0:ℚ), 1], [0, 0], [(0, 1)], c⟩ =
      some ⟨[(0:ℚ), 1], [0, 0], [(0, 1)], c - 1⟩ := by
  rcases Nat.eq_zero_or_pos c with hc | hc
  · subst hc
    exact stepState_of_yielded c1_decoder_step_zero
  · exact stepState_of_skipped (c1_decoder_step_pos c hc)

theorem stepIterOpt_succ_some {s s' : DecoderState} (n : ℕ) (h : stepState s = some s') :
    stepIterOpt (n + 1) s = stepIterOpt n s' := by
  simp only [stepIterOpt, h]

theorem c1_never_exits : ∀ n c : ℕ,
    stepIterOpt n ⟨[(0:ℚ), 1], [0, 0], [(0, 1)], c⟩ ≠ none := by
  intro n
  induction n with
  | zero =>
    intro c h
    simp [stepIterOpt] at h
  | succ n ih =>
    intro c h
    rw [stepIterOpt_succ_some n (c1_loop_step c)] at h
    exact ih (c - 1) h

theorem c1_first_step :
    stepState (initState [(0:ℚ), 1] [(1:ℚ), 0]) =
      some ⟨[(0:ℚ), 1], [0, 0], [(0, 1)], 100⟩ := by
  norm_num [stepState, decoderStep, initState, INITIAL_CONTINUATIONS, selectSpan, scanStep,
    cumargmaxYStart, cumargmaxMask, maximumAccumulate, maxAccumFrom, zeroRange,
    suppressedRange, intersectsUsed, intervalsIntersect, EPSILON, proportionToDecay,
    RESET_RANGE, List.range_succ]

/-- **C1** counterexample: on the valid probability vectors
`start_probs = [0, 1]`, `end_probs = [1, 0]` the decoding loop never
terminates: every iteration selects the span `(0, 0)`, whose reset range
`[0, 1)` holds no remaining start probability, so no mass is ever removed
and `sum(start_probs) = 1 > EPSILON` forever. -/
theorem claim_C1_counterexample :
    List.sum [(0:ℚ), 1] = 1 ∧ List.sum [(1:ℚ), 0] = 1 ∧
    ¬ Terminates (initState [(0:ℚ), 1] [(1:ℚ), 0]) := by
  refine ⟨by norm_num, by norm_num, ?_⟩
  rintro ⟨n, hn⟩
  cases n with
  | zero => simp [stepIterOpt] at hn
  | succ n =>
    rw [stepIterOpt_succ_some n c1_first_step] at hn
    exact c1_never_exits n 100 hn

theorem filter_sublist_of_imp {α : Type} (l : List α) (p q : α → Bool)
    (h : ∀ x ∈ l, p x = true → q x = true) :
    List.Sublist (l.filter p) (l.filter q) := by
  induction l with
  | nil => simp
  | cons x xs ih =>
    have ih' := ih (fun z hz => h z (List.mem_cons_of_mem _ hz))
    by_cases hx : p x = true
    · have hqx := h x (List.mem_cons_self x xs) hx
      simp only [List.filter_cons, hx, hqx, if_true]
      exact ih'.cons₂ x
    · cases hq : q x with
      | false =>
        simp only [List.filter_cons, hq, Bool.false_eq_true, if_false,
          (Bool.not_eq_true (p x)).mp hx]
        exact ih'
      | true =>
        simp only [List.filter_cons, hq, if_true, (Bool.not_eq_true (p x)).mp hx,
          Bool.false_eq_true, if_false]
        exact ih'.cons x

/-- Zeroing a range that holds a positive entry strictly decreases the number
of positive entries. -/
theorem countPos_zeroRange_lt (l : List ℚ) (a b i0 : ℕ) (hi0 : i0 < l.length)
    (ha : a ≤ i0) (hb : i0 < b) (hpos : 0 < l.getD i0 0) :
    countPos (zeroRange l a b) < countPos l := by
  have hzl : (zeroRange l a b).length = l.length := zeroRange_length l a b
  have himp : ∀ i ∈ List.range l.length,
      (decide (0 < (zeroRange l a b).getD i 0)) = true →
      (decide (0 < l.getD i 0)) = true := by
    intro i hi hdec
    have hiN : i < l.length := List.mem_range.mp hi
    rw [decide_eq_true_iff] at hdec ⊢
    rw [zeroRange_getD l a b i hiN] at hdec
    split at hdec
    · exact absurd hdec (lt_irrefl 0)
    · exact hdec
  have hsub := filter_sublist_of_imp (List.range l.length)
    (fun i => decide (0 < (zeroRange l a b).getD i 0))
    (fun i => decide (0 < l.getD i 0)) himp
  have hle := hsub.length_le
  rcases lt_or_eq_of_le hle with hlt | heq
  · unfold countPos
    rw [hzl]
    exact hlt
  · exfalso
    have heqlist := hsub.eq_of_length heq
    have hmem : i0 ∈ (List.range l.length).filter (fun i => decide (0 < l.getD i 0)) :=
      List.mem_filter.mpr ⟨List.mem_range.mpr hi0, by simpa using hpos⟩
    rw [← heqlist] at hmem
    have := (List.mem_filter.mp hmem).2
    rw [decide_eq_true_iff, zeroRange_getD l a b i0 hi0, if_pos ⟨ha, hb⟩] at this
    exact absurd this (lt_irrefl 0)

/-- **C1** (amended): the decoder is **not** guaranteed to terminate on all
valid probability vectors (see the counterexample), because an iteration
removes probability mass only when the selected start position still holds
positive probability.  Every iteration that does select a positive start
strictly decreases the number of positive entries of `start_probs`, so at
most `N` such iterations can occur; an iteration that selects a zeroed start
changes neither probability vector and the loop then repeats forever. -/
theorem claim_C1_mass_removal (s s' : DecoderState)
    (hlen : s.y1.length = s.y2.length)
    (h : stepState s = some s')
    (hpos : 0 < s.y1.getD (selectSpan s.y1 s.y2).optS 0) :
    countPos s'.y1 < countPos s.y1 := by
  obtain ⟨h1, hy1, _⟩ := stepState_some_inv h
  have hN : 0 < s.y1.length := sum_pos_of_epsilon_lt h1
  obtain ⟨hse, heN⟩ := selectSpan_bounds s.y1 s.y2 hlen hN
  rw [hy1]
  refine countPos_zeroRange_lt s.y1 (suppressedRange s).1 (suppressedRange s).2
    (selectSpan s.y1 s.y2).optS (by omega) ?_ ?_ hpos
  · simp only [suppressedRange]
    omega
  · simp only [suppressedRange, RESET_RANGE]
    omega

/-- Witness for C1 (amended) at a concrete input. -/
theorem claim_C1_witness :
    (stepState (initState [(1:ℚ)/2, 1/2] [(1:ℚ)/2, 1/2]) =
      some ⟨[0, 1/2], [0, 1/2], [(0, 1)], 100⟩) ∧
    (0 < [(1:ℚ)/2, 1/2].getD (selectSpan [(1:ℚ)/2, 1/2] [(1:ℚ)/2, 1/2]).optS 0) ∧
    countPos [(0:ℚ), 1/2] < countPos [(1:ℚ)/2, 1/2] := by
  have hstep : stepState (initState [(1:ℚ)/2, 1/2] [(1:ℚ)/2, 1/2]) =
      some ⟨[0, 1/2], [0, 1/2], [(0, 1)], 100⟩ := by
    norm_num [stepState, decoderStep, initState, INITIAL_CONTINUATIONS, selectSpan, scanStep,
      cumargmaxYStart, cumargmaxMask, maximumAccumulate, maxAccumFrom, zeroRange,
      suppressedRange, intersectsUsed, intervalsIntersect, EPSILON, proportionToDecay,
      RESET_RANGE, List.range_succ]
  have hpos : 0 < [(1:ℚ)/2, 1/2].getD (selectSpan [(1:ℚ)/2, 1/2] [(1:ℚ)/2, 1/2]).optS 0 := by
    norm_num [selectSpan, scanStep, cumargmaxYStart, cumargmaxMask, maximumAccumulate,
      maxAccumFrom, proportionToDecay, List.range_succ]
  exact ⟨hstep, hpos,
    claim_C1_mass_removal (initState [(1:ℚ)/2, 1/2] [(1:ℚ)/2, 1/2])
      ⟨[0, 1/2], [0, 1/2], [(0, 1)], 100⟩ rfl hstep hpos⟩

/-! ## C10: disjointness of the suppressed ranges yielded in the budget phase -/

theorem intervalsIntersect_comm (p q : ℕ × ℕ) :
    intervalsIntersect p q = intervalsIntersect q p := by
  simp [intervalsIntersect, Nat.max_comm, Nat.min_comm]

theorem intersectsUsed_eq_false {used : List (ℕ × ℕ)} {r : ℕ × ℕ}
    (h : intersectsUsed used r = false) :
    ∀ u ∈ used, intervalsIntersect u r = false := by
  intro u hu
  simp only [intersectsUsed, List.any_eq_false] at h
  have := h u hu
  cases hb : intervalsIntersect u r
  · rfl
  · exact absurd hb this

/-- Invariant of the decoding loop: every suppressed range yielded while the
budget is positive is disjoint (as a closed interval, so not even sharing an
endpoint) from every interval already in the used set, and the yielded
ranges are pairwise disjoint among themselves. -/
theorem budgetRanges_invariant : ∀ (fuel : ℕ) (s : DecoderState),
    (∀ r ∈ budgetRanges fuel s, ∀ u ∈ s.used, intervalsIntersect r u = false) ∧
    (budgetRanges fuel s).Pairwise (fun p q => intervalsIntersect p q = false) := by
  intro fuel
  induction fuel with
  | zero =>
    intro s
    simp [budgetRanges, runDecoderTrace]
  | succ fuel ih =>
    intro s
    cases hstep : decoderStep s with
    | done => simp [budgetRanges, runDecoderTrace, hstep]
    | skipped s' =>
      obtain ⟨_, _, _, _, _, hused, _⟩ := decoderStep_skipped_inv hstep
      have hb : budgetRanges (fuel + 1) s = budgetRanges fuel s' := by
        simp [budgetRanges, runDecoderTrace, hstep]
      rw [hb]
      obtain ⟨ih1, ih2⟩ := ih s'
      refine ⟨?_, ih2⟩
      intro r hr u hu
      exact ih1 r hr u (by rw [hused]; exact hu)
    | yielded sp sc s' =>
      obtain ⟨_, _, _, _, _, hcase⟩ := decoderStep_yielded_inv hstep
      obtain ⟨ih1, ih2⟩ := ih s'
      rcases hcase with ⟨hc, hint, hused, _⟩ | ⟨hc, hused, _⟩
      · -- yield while the budget is positive: the guard ran and the range is fresh
        have hb : budgetRanges (fuel + 1) s =
            suppressedRange s :: budgetRanges fuel s' := by
          simp [budgetRanges, runDecoderTrace, hstep, hc]
        have hfresh : ∀ u ∈ s.used, intervalsIntersect u (suppressedRange s) = false :=
          intersectsUsed_eq_false hint
        rw [hb]
        constructor
        · intro r hr u hu
          rcases List.mem_cons.mp hr with hre | hr'
          · rw [hre, intervalsIntersect_comm]
            exact hfresh u hu
          · exact ih1 r hr' u (by rw [hused]; exact List.mem_append_left _ hu)
        · refine List.Pairwise.cons ?_ ih2
          intro q hq
          have hqdisj := ih1 q hq (suppressedRange s)
            (by rw [hused]; exact List.mem_append_right _ (by simp))
          rw [intervalsIntersect_comm]
          exact hqdisj
      · -- yield after budget exhaustion: not part of the budget phase
        have hb : budgetRanges (fuel + 1) s = budgetRanges fuel s' := by
          simp [budgetRanges, runDecoderTrace, hstep, hc]
        rw [hb]
        refine ⟨?_, ih2⟩
        intro r hr u hu
        exact ih1 r hr u (by rw [hused]; exact hu)

/-- **C10.** While the retry budget of a `find_answer_spans` session is not
exhausted, the used-interval set is maintained with closed intervals, so a
suppressed range that merely touches a previously yielded one at an endpoint
counts as intersecting and is skipped; consequently the suppressed ranges of
any two yields of the budget phase are disjoint closed intervals — they do
not even share an endpoint. -/
theorem claim_C10_budget_yield_ranges_disjoint (y1 y2 : List ℚ) (fuel : ℕ) :
    (budgetRanges fuel (initState y1 y2)).Pairwise
      (fun p q => intervalsIntersect p q = false) :=
  (budgetRanges_invariant fuel (initState y1 y2)).2

/-! ## C5: `get_logits` with a supplied document embedding -/

/-- **C5.** Whenever a caller supplies a non-`None` `document_embedding`,
`get_logits` crashes with `UnboundLocalError` (the local `doc` is only
assigned inside the `document_embedding is None` branch but read by the token
counting), before any model call or result is produced — contradicting the
function's docstring and the repository's own test
`test_get_logits_correct_shape_with_doc_emb`. -/
theorem claim_C5_supplied_embedding_crashes (m : Model)
    (text question before after : String) (emb : List (List ℚ)) :
    getLogits m text question before after (some emb) =
      (.error .unboundLocalDoc, []) := rfl

/-! ## C9: answer-record construction -/

/-- **C9.** `MachineReaderAnswer` construction fails exactly when an
invariant is violated: a `None` text or long text, a score outside `[0, 1]`,
or a half-open span (one bound present, the other absent); in particular a
span with both bounds `None` passes. -/
theorem claim_C9_answer_construction_fails_iff (t : Option (List Char))
    (sp : Option ℤ × Option ℤ) (longT : Option (List Char))
    (lsp : Option ℤ × Option ℤ) (sr sd : ℚ) :
    mkMachineReaderAnswer t sp longT lsp sr sd = none ↔
      (t = none ∨ longT = none ∨ sr < 0 ∨ 1 < sr ∨ sd < 0 ∨ 1 < sd ∨
       ¬(sp.1.isSome ↔ sp.2.isSome) ∨ ¬(lsp.1.isSome ↔ lsp.2.isSome)) := by
  rw [mkMachineReaderAnswer]
  split_ifs with h
  · obtain ⟨ht, hlt2, h0sr, h1sr, h0sd, h1sd, hA, hB, hC, hD⟩ := h
    constructor
    · intro habs
      exact absurd habs (by simp)
    · intro hrhs
      exfalso
      rcases hrhs with h' | h' | h' | h' | h' | h' | h' | h'
      · exact Option.isSome_iff_ne_none.mp ht h'
      · exact Option.isSome_iff_ne_none.mp hlt2 h'
      · exact absurd h' (not_lt.mpr h0sr)
      · exact absurd h' (not_lt.mpr h1sr)
      · exact absurd h' (not_lt.mpr h0sd)
      · exact absurd h' (not_lt.mpr h1sd)
      · exact h' ⟨hA, hB⟩
      · exact h' ⟨hC, hD⟩
  · constructor
    · intro _
      by_contra hcon
      push_neg at hcon
      obtain ⟨ht, hlt2, h0sr, h1sr, h0sd, h1sd, hiff1, hiff2⟩ := hcon
      exact h ⟨Option.isSome_iff_ne_none.mpr ht, Option.isSome_iff_ne_none.mpr hlt2,
        h0sr, h1sr, h0sd, h1sd, hiff1.mp, hiff1.mpr, hiff2.mp, hiff2.mpr⟩
    · intro _
      rfl

/-! ## C6: structural preconditions of multi-chunk stitching -/

/-- **C6** (amended): an empty chunk list (or an empty overlap list) makes
the stitching fail with the `np.concatenate`-of-nothing error. -/
theorem claim_C6_empty_chunks_error (m : Model)
    (allTheLogits : List (List ℚ × List ℚ)) (allTheOverlaps : List (ℕ × ℕ))
    (text : String) (h : allTheLogits = [] ∨ allTheOverlaps = []) :
    stitchLogits m allTheLogits allTheOverlaps text = .error .concatenateEmpty := by
  rcases h with h | h <;> subst h <;>
    simp [stitchLogits, List.zip_nil_left, List.zip_nil_right]

/-- Witness for C6 (amended) at a concrete input. -/
theorem claim_C6_witness :
    (([] : List (List ℚ × List ℚ)) = [] ∨ [((0:ℕ), (0:ℕ))] = []) ∧
    stitchLogits stubModel [] [((0:ℕ), (0:ℕ))] "" = .error .concatenateEmpty :=
  ⟨Or.inl rfl,
   claim_C6_empty_chunks_error stubModel [] [((0:ℕ), (0:ℕ))] "" (Or.inl rfl)⟩

/-- **C6** counterexample: chunk-logits and overlaps lists of mismatched
lengths (2 chunks, 1 overlap pair) do **not** fail: `zip` silently truncates
to the shorter list, the second chunk's logits are dropped, and since the
remaining stitched length happens to match the token count of the full text
the call succeeds. -/
theorem claim_C6_counterexample :
    ([([(1:ℚ), 2, 3, 4, 5], [(5:ℚ), 4, 3, 2, 1]), ([(9:ℚ), 9, 9], [(8:ℚ), 8, 8])].length ≠
      [((0:ℕ), (0:ℕ))].length) ∧
    stitchLogits fiveTokenModel
      [([(1:ℚ), 2, 3, 4, 5], [(5:ℚ), 4, 3, 2, 1]), ([(9:ℚ), 9, 9], [(8:ℚ), 8, 8])]
      [((0:ℕ), (0:ℕ))] "ctx" =
      .ok ([(1:ℚ), 2, 3, 4, 5], [(5:ℚ), 4, 3, 2, 1]) := by
  exact ⟨by simp, rfl⟩

/-! ## C4: `get_answers` on an empty document -/

/-- **C4** (amended): `get_answers` performs **no** empty-input validation.
On a document that tokenizes to zero tokens (with a model producing
empty logits for it) the external model's embedding and logit computations
are both invoked, and the failure that eventually surfaces is the numpy
error of taking `np.max` of an empty array inside the softmax — downstream
of the model calls, not before them. -/
theorem claim_C4_empty_document_error (m : Model) (expQ : ℚ → ℚ)
    (cfg : Configuration) (question : String) (fuel : ℕ)
    (htok : m.tokenize "" = ([], []))
    (hlog : (m.getLogits question (m.getDocumentEmbedding "")).1 = []) :
    getAnswers m expQ cfg "" question fuel =
      (.error .emptyMax, [.embeddingCall "", .logitsCall question]) := by
  have hcomb : combineOverlaps "" "" "" = "" := rfl
  have hcount : countTokens m "" = 0 := by simp [countTokens, htok]
  rcases hml : m.getLogits question (m.getDocumentEmbedding "") with ⟨ls, le⟩
  rw [hml] at hlog
  simp only at hlog
  subst hlog
  simp [getAnswers, getLogits, hcomb, hcount, hml, getAnswersFromLogits, stitchLogits,
    pySlice, softmax, npMax]

/-- Witness for C4 (amended) at a concrete model. -/
theorem claim_C4_witness :
    stubModel.tokenize "" = ([], []) ∧
    (stubModel.getLogits "q" (stubModel.getDocumentEmbedding "")).1 = [] ∧
    getAnswers stubModel expOne ⟨0, 0, 1⟩ "" "q" 1 =
      (.error .emptyMax, [.embeddingCall "", .logitsCall "q"]) :=
  ⟨rfl, rfl, claim_C4_empty_document_error stubModel expOne ⟨0, 0, 1⟩ "q" 1 rfl rfl⟩

/-- **C4** counterexample: with a concrete model on the empty document, the
call log of `get_answers` contains the model's embedding call (and the logit
call): the model **is** invoked, and the eventual failure is the
empty-softmax error, not an empty-input validation error. -/
theorem claim_C4_counterexample :
    getAnswers stubModel expOne ⟨0, 0, 1⟩ "" "q" 1 =
      (.error .emptyMax, [.embeddingCall "", .logitsCall "q"]) ∧
    ModelCall.embeddingCall "" ∈ (getAnswers stubModel expOne ⟨0, 0, 1⟩ "" "q" 1).2 := by
  refine ⟨rfl, ?_⟩
  rw [show (getAnswers stubModel expOne ⟨0, 0, 1⟩ "" "q" 1).2 =
    [ModelCall.embeddingCall "", ModelCall.logitsCall "q"] from rfl]
  exact List.mem_cons_self _ _

/-! ## C8: `find_best_spans` operates on private copies -/

theorem getD_set_of_ne {α : Type} (l : List α) (j : ℕ) (a : α) (i : ℕ) (d : α)
    (h : i ≠ j) : (l.set j a).getD i d = l.getD i d := by
  rcases Nat.lt_or_ge i l.length with hi | hi
  · rw [List.getD_eq_getElem _ _ (by simpa using hi), List.getD_eq_getElem _ _ hi]
    exact List.getElem_set_ne (Ne.symm h) _
  · rw [List.getD_eq_default _ _ (by simpa using hi), List.getD_eq_default _ _ hi]

/-- **C8.** `find_best_spans` operates on private copies of the two
probability vectors: whatever number of decoder iterations its lazy output
drives, the caller's buffers (the store entries at `i1` and `i2`) are
unchanged afterwards — the in-place zeroing of `find_answer_spans` hits only
the two freshly allocated copies. -/
theorem claim_C8_find_best_spans_frame (store : List (List ℚ)) (i1 i2 topK fuel : ℕ)
    (h1 : i1 < store.length) (h2 : i2 < store.length) :
    ((findBestSpansStore store i1 i2 topK fuel).1).getD i1 [] = store.getD i1 [] ∧
    ((findBestSpansStore store i1 i2 topK fuel).1).getD i2 [] = store.getD i2 [] := by
  simp only [findBestSpansStore]
  constructor
  · rw [getD_set_of_ne _ _ _ _ _ (by omega), getD_set_of_ne _ _ _ _ _ (by omega),
      List.getD_append _ _ _ _ h1]
  · rw [getD_set_of_ne _ _ _ _ _ (by omega), getD_set_of_ne _ _ _ _ _ (by omega),
      List.getD_append _ _ _ _ h2]

/-- Witness for C8 at a concrete store. -/
theorem claim_C8_witness :
    (0 < ([[(1:ℚ)/2, 1/2], [(1:ℚ)/3, 2/3]] : List (List ℚ)).length) ∧
    (1 < ([[(1:ℚ)/2, 1/2], [(1:ℚ)/3, 2/3]] : List (List ℚ)).length) ∧
    ((findBestSpansStore [[(1:ℚ)/2, 1/2], [(1:ℚ)/3, 2/3]] 0 1 1 1).1).getD 0 [] =
      [(1:ℚ)/2, 1/2] ∧
    ((findBestSpansStore [[(1:ℚ)/2, 1/2], [(1:ℚ)/3, 2/3]] 0 1 1 1).1).getD 1 [] =
      [(1:ℚ)/3, 2/3] := by
  have h := claim_C8_find_best_spans_frame [[(1:ℚ)/2, 1/2], [(1:ℚ)/3, 2/3]] 0 1 1 1
    (by simp) (by simp)
  exact ⟨by simp, by simp, by rw [h.1]; simp, by rw [h.2]; simp⟩

end Cape
